import Mathlib

/-!
Verification of the jetgan data pipeline (jetgan/data/image.py,
jetgan/data/generators.py, jetgan/data/generate_data.py).

Numeric values carried by the Python code (floats) are modelled as
rationals; Python ints as integers.  External collaborators (Pythia event
generation, fastjet clustering and geometric selectors, numpy random
numbers) are modelled as explicit inputs to the embedded functions, since
their outputs are data the repository's own code merely consumes.
-/

set_option autoImplicit false

namespace JetGan

/-! ### find_bin (image.py, lines 12-18)

`int()` in Python truncates toward zero; `pyInt` models that on rationals.
`find_bin(val, nbins, min_val, delta)` returns -1 below `min_val`, -1 above
`min_val + nbins * delta`, and otherwise `int((val - min_val) / delta)`.
All call sites pass an integer for `nbins`. -/

def pyInt (q : ℚ) : ℤ :=
  if 0 ≤ q then ⌊q⌋ else ⌈q⌉

def find_bin (val : ℚ) (nbins : ℤ) (min_val delta : ℚ) : ℤ :=
  if val < min_val then -1
  else if val > min_val + (nbins : ℚ) * delta then -1
  else pyInt ((val - min_val) / delta)

lemma pyInt_of_nonneg {q : ℚ} (h : 0 ≤ q) : pyInt q = ⌊q⌋ := by
  simp [pyInt, h]

/-- On `[min_val, min_val + nbins*delta]` with positive width, `find_bin`
returns the floor of the scaled offset. -/
lemma find_bin_eq_floor {v m w : ℚ} {n : ℤ} (hw : 0 < w)
    (h1 : m ≤ v) (h2 : v ≤ m + (n : ℚ) * w) :
    find_bin v n m w = ⌊(v - m) / w⌋ := by
  have hlt : ¬ v < m := not_lt.mpr h1
  have hgt : ¬ v > m + (n : ℚ) * w := not_lt.mpr h2
  have hnn : (0 : ℚ) ≤ (v - m) / w := div_nonneg (by linarith) hw.le
  simp [find_bin, hlt, hgt, pyInt_of_nonneg hnn]

lemma find_bin_nonneg {v m w : ℚ} {n : ℤ} (hw : 0 < w)
    (h1 : m ≤ v) (h2 : v ≤ m + (n : ℚ) * w) :
    0 ≤ find_bin v n m w := by
  rw [find_bin_eq_floor hw h1 h2]
  exact Int.floor_nonneg.mpr (div_nonneg (by linarith) hw.le)

lemma find_bin_lt {v m w : ℚ} {n : ℤ} (hw : 0 < w)
    (h1 : m ≤ v) (h2 : v < m + (n : ℚ) * w) :
    find_bin v n m w < n := by
  rw [find_bin_eq_floor hw h1 h2.le]
  rw [Int.floor_lt]
  rw [div_lt_iff₀ hw]
  linarith

lemma find_bin_out {v m w : ℚ} {n : ℤ}
    (h : v < m ∨ m + (n : ℚ) * w < v) :
    find_bin v n m w = -1 := by
  by_cases hvm : v < m
  · simp [find_bin, hvm]
  · have hgt : m + (n : ℚ) * w < v := by
      rcases h with h | h
      · exact absurd h hvm
      · exact h
    simp [find_bin, hvm, hgt]

/-! ### pseudojet_to_image (image.py, lines 21-64)

A constituent is recorded through the quantities the loop body actually
reads: its angular offsets from the jet axis (`deta` from
`constituent.eta() - jet.eta()`, `dphi` from `jet.delta_phi_to(constituent)`,
both computed by fastjet, an external collaborator), its integer charge
label (`user_index`, set to `int(p.charge())` by `MakePseudoJet` in
generators.py) and its transverse momentum.

The numpy array `np.zeros(shape=(x_bins, y_bins, z_bins))` is a nested
list; `image[x_bin, y_bin, z_bin] += pt` is `addAt`, which follows numpy
indexing: an index `i` on an axis of size `n` is accepted when
`-n ≤ i < n` (negative indices count from the end) and raises `IndexError`
otherwise, modelled by `none`. -/

structure ImageParams where
  x_bins : ℕ
  x_min : ℚ
  x_max : ℚ
  y_bins : ℕ
  y_min : ℚ
  y_max : ℚ
  z_bins : ℕ
deriving DecidableEq

structure Constituent where
  deta : ℚ
  dphi : ℚ
  charge : ℤ
  pt : ℚ
deriving DecidableEq

abbrev Image : Type := List (List (List ℚ))

def zerosImage (x y z : ℕ) : Image :=
  List.replicate x (List.replicate y (List.replicate z (0 : ℚ)))

/-- numpy index resolution on one axis of size `n`. -/
def npIdx (i : ℤ) (n : ℕ) : Option ℕ :=
  if 0 ≤ i ∧ i < (n : ℤ) then some i.toNat
  else if -(n : ℤ) ≤ i ∧ i < 0 then some (i + (n : ℤ)).toNat
  else none

/-- Accumulation `image[ix, iy, iz] += v`, `none` on `IndexError`. -/
def addAt (img : Image) (ix iy iz : ℤ) (v : ℚ) : Option Image :=
  match npIdx ix img.length with
  | none => none
  | some x =>
    match img[x]? with
    | none => none
    | some plane =>
      match npIdx iy plane.length with
      | none => none
      | some y =>
        match plane[y]? with
        | none => none
        | some row =>
          match npIdx iz row.length with
          | none => none
          | some z =>
            match row[z]? with
            | none => none
            | some cell =>
              some (img.set x (plane.set y (row.set z (cell + v))))

/-- Channel choice `z_bin = abs(charge) if z_bins == 2 else 0` (image.py, line 57). -/
def z_index (z_bins : ℕ) (charge : ℤ) : ℤ :=
  if z_bins = 2 then |charge| else 0

/-- The `for constituent in jet.constituents()` loop of
`pseudojet_to_image`, with the per-axis widths `x_delta`, `y_delta`
already computed.  The loop raises (→ `none`) as soon as `addAt` raises. -/
def rasterLoop (p : ImageParams) (x_delta y_delta : ℚ) :
    List Constituent → Image → Option Image
  | [], img => some img
  | c :: rest, img =>
    let x_bin := find_bin c.deta (p.x_bins : ℤ) p.x_min x_delta
    let y_bin := find_bin c.dphi (p.y_bins : ℤ) p.y_min y_delta
    let z_bin := z_index p.z_bins c.charge
    if x_bin = -1 ∨ y_bin = -1 then rasterLoop p x_delta y_delta rest img
    else
      match addAt img x_bin y_bin z_bin c.pt with
      | none => none
      | some img2 => rasterLoop p x_delta y_delta rest img2

def pseudojet_to_image (constituents : List Constituent) (p : ImageParams) :
    Option Image :=
  let x_delta := (p.x_max - p.x_min) / (p.x_bins : ℚ)
  let y_delta := (p.y_max - p.y_min) / (p.y_bins : ℚ)
  rasterLoop p x_delta y_delta constituents
    (zerosImage p.x_bins p.y_bins p.z_bins)

/-- Total of all image cells. -/
def imageSum (img : Image) : ℚ :=
  (List.map (fun pl => (List.map List.sum pl).sum) img).sum

/-- The half-open window actually accumulated by the code: both bin
lookups succeed with an in-range index exactly here (the closed upper
edge instead yields the out-of-bounds index `bins`). -/
def inWindow (p : ImageParams) (c : Constituent) : Prop :=
  p.x_min ≤ c.deta ∧ c.deta < p.x_max ∧ p.y_min ≤ c.dphi ∧ c.dphi < p.y_max

instance inWindowDec (p : ImageParams) : DecidablePred (inWindow p) := by
  intro c
  unfold inWindow
  infer_instance

/-- Sum of the transverse momenta of the constituents inside the window. -/
def inWindowSum (p : ImageParams) (cs : List Constituent) : ℚ :=
  (List.map Constituent.pt (cs.filter (fun c => decide (inWindow p c)))).sum

/-! ### load_jet_images (image.py, lines 75-90)

Input files are modelled after parsing: one list of numeric fields per
line.  `read_csv(file, sep=delimiter, index_col=False, names=range(k),
header=None, ...)` builds a frame with exactly `k` columns named
`0 .. k-1`; a line with fewer fields than `k` has its missing trailing
columns filled with NaN, modelled as `none` (the model covers lines with
at most `k` fields, which is the shape the record writer produces).

`images.reshape((n, w, h, c))` is numpy's row-major reshape: cell
`(i, j, k)` of event row `r` is flat element `i*(h*c) + j*c + k` of `r`
(each padded row has exactly `w*h*c` elements, so `getD` never falls back
to its default).

`assert images.shape[0] == jets.shape[0]` (line 88) raises before
anything is returned when the row counts differ; the raised
`AssertionError` of this shape check is the only failure the function
itself raises, modelled as the dedicated `LoadError.shapeMismatch`. -/

abbrev Cell : Type := Option ℚ

def padTo (k : ℕ) (row : List ℚ) : List Cell :=
  row.map some ++ List.replicate (k - row.length) none

def read_csv (k : ℕ) (rows : List (List ℚ)) : List (List Cell) :=
  rows.map (padTo k)

def reshapeRow (w h c : ℕ) (row : List Cell) : List (List (List Cell)) :=
  (List.range w).map fun i =>
    (List.range h).map fun j =>
      (List.range c).map fun k => row.getD (i * (h * c) + j * c + k) none

def np_reshape (w h c : ℕ) (rows : List (List Cell)) :
    List (List (List (List Cell))) :=
  rows.map (reshapeRow w h c)

inductive LoadError : Type
  | shapeMismatch
deriving DecidableEq

def load_jet_images (jet_rows image_rows : List (List ℚ))
    (image_width image_height image_channels : ℕ) :
    Except LoadError (List (List Cell) × List (List (List (List Cell)))) :=
  let image_size := image_width * image_height * image_channels
  let df_images := read_csv image_size image_rows
  let df_jets := read_csv image_size jet_rows
  let images := np_reshape image_width image_height image_channels df_images
  let jets := df_jets
  if images.length = jets.length then Except.ok (jets, images)
  else Except.error LoadError.shapeMismatch

/-! ### PythiaGenerator (generators.py)

A particle is the 4-momentum plus integer charge label that
`MakePseudoJet` packs into a fastjet `PseudoJet` (generators.py,
lines 15-18). -/

structure Particle where
  px : ℚ
  py : ℚ
  pz : ℚ
  e : ℚ
  charge : ℤ
deriving DecidableEq

/-- The value held by `self.detector_particles` at the moment
`self.track_selector(...)` is applied (generators.py, lines 117-133):
`smear_tracks` first resets the list to `[]`, then the `if`/`elif` chain
assigns the gaussian-smeared list (an external numpy computation, supplied
here as `gaussSmeared`) or, for the `tpc_sim`/`star_sim` passthroughs, the
truth list; when no branch fires the reset empty list is left in place. -/
def smear_tracks_detector (gauss_smear tpc_sim star_sim : Bool)
    (gaussSmeared truth_particles : List Particle) : List Particle :=
  if gauss_smear then gaussSmeared
  else if tpc_sim then truth_particles
  else if star_sim then truth_particles
  else []

/-- Condition under which `init` prints
`Warning: no detector simulation method has been chosen, disabling
detector simulation` (generators.py, lines 111-113). -/
def no_sim_warning (gauss_smear tpc_sim star_sim : Bool) : Bool :=
  !star_sim && !gauss_smear && !tpc_sim

/-! ### The generation driver (generate_data.py, lines 53-93)

The jets handed back by fastjet carry the four scalars the driver ever
reads or writes. -/

structure Jet where
  pt : ℚ
  eta : ℚ
  phi : ℚ
  m : ℚ
deriving DecidableEq

/-- Insertion step of fastjet's `sorted_by_pt` (descending pt). -/
def insertByPt (j : Jet) : List Jet → List Jet
  | [] => [j]
  | k :: rest => if k.pt ≤ j.pt then j :: k :: rest else k :: insertByPt j rest

/-- Model of `fastjet.sorted_by_pt`: the list reordered by descending pt. -/
def sorted_by_pt (l : List Jet) : List Jet :=
  l.foldr insertByPt []

/-- What the external collaborators deliver for one loop iteration:
whether `pythia.next()` succeeded and, if it did, the two selected,
pt-sorted jet lists produced by clustering. -/
structure EventOutcome where
  success : Bool
  genJets : List Jet
  detJets : List Jet

/-- The slice of `PythiaGenerator` state the driver reads back through
`generator_jets()` / `detector_jets()`. -/
structure GenState where
  gen_jet : List Jet
  det_jet : List Jet
deriving DecidableEq

/-- Model of `PythiaGenerator.next` (generators.py, lines 138-170): it first clears
`gen_jet` and `det_jet`; if `self.gen.next()` fails it returns right away
(returning `False`, which the driver ignores) with the lists still empty,
otherwise it stores the externally clustered jet lists.  (On success the
Python function falls through to a bare `return`.) -/
def pythiaNext (ev : EventOutcome) (_s : GenState) : GenState :=
  if ev.success then ⟨ev.genJets, ev.detJets⟩ else ⟨[], []⟩

/-- The matching step (generate_data.py, lines 77-85):
`fastjet.SelectorCircle(radius)` with the leading truth jet as reference
keeps the detector jets within `radius` of it under fastjet's angular
distance `dist` (an external geometric computation, passed as a
parameter); the candidates are re-sorted by descending pt and the first
one, if any, is the match. -/
def matchDetectorJet (radius : ℚ) (dist : Jet → Jet → ℚ) (truth : Jet)
    (det_jets : List Jet) : Option Jet :=
  (sorted_by_pt (det_jets.filter fun j => decide (dist truth j ≤ radius))).head?

inductive FStream : Type
  | detJet
  | detImage
  | genJet
  | genImage
deriving DecidableEq

inductive FileOp : Type
  | openF : FStream → FileOp
  | write : FStream → FileOp
  | close : FStream → FileOp
deriving DecidableEq

/-- One iteration of the driver loop (generate_data.py, lines 65-93):
advance the generator, read both jet lists back, `continue` when either
is empty, match, `continue` when no candidate survives the circle
selector, otherwise rasterize and append one line to each of the four
streams (`write_image_to_file` writes the jet line then the image line,
detector pair first). -/
def eventOps (radius : ℚ) (dist : Jet → Jet → ℚ) (ev : EventOutcome)
    (s : GenState) : GenState × List FileOp :=
  let s' := pythiaNext ev s
  match s'.gen_jet, s'.det_jet with
  | [], _ => (s', [])
  | _ :: _, [] => (s', [])
  | truth :: _, d :: ds =>
    match matchDetectorJet radius dist truth (d :: ds) with
    | none => (s', [])
    | some _ =>
        (s', [FileOp.write FStream.detJet, FileOp.write FStream.detImage,
              FileOp.write FStream.genJet, FileOp.write FStream.genImage])

def loopOps (radius : ℚ) (dist : Jet → Jet → ℚ) :
    List EventOutcome → GenState → List FileOp
  | [], _ => []
  | ev :: rest, s =>
    (eventOps radius dist ev s).2 ++ loopOps radius dist rest (eventOps radius dist ev s).1

/-- The whole of `main` after argument handling: open the four output
files (lines 57-62, in source order), run the fixed-length loop, return.
The trace records every file operation the driver performs. -/
def mainOps (radius : ℚ) (dist : Jet → Jet → ℚ)
    (events : List EventOutcome) : List FileOp :=
  [FileOp.openF FStream.detJet, FileOp.openF FStream.detImage,
   FileOp.openF FStream.genJet, FileOp.openF FStream.genImage]
    ++ loopOps radius dist events ⟨[], []⟩

/-! ### Helper lemmas about the rasterizer -/

lemma sum_set_add (l : List ℚ) (i : ℕ) (c v : ℚ) (h : l[i]? = some c) :
    (l.set i (c + v)).sum = l.sum + v := by
  induction l generalizing i with
  | nil => simp at h
  | cons a t ih =>
    cases i with
    | zero =>
      simp only [List.getElem?_cons_zero, Option.some.injEq] at h
      subst h
      simp only [List.set_cons_zero, List.sum_cons]
      ring
    | succ n =>
      simp only [List.getElem?_cons_succ] at h
      simp only [List.set_cons_succ, List.sum_cons, ih n h]
      ring

lemma sum_map_set_add {α : Type} (f : α → ℚ) (l : List α) (i : ℕ) (a b : α)
    (v : ℚ) (ha : l[i]? = some a) (hb : f b = f a + v) :
    ((l.set i b).map f).sum = (l.map f).sum + v := by
  induction l generalizing i with
  | nil => simp at ha
  | cons x t ih =>
    cases i with
    | zero =>
      simp only [List.getElem?_cons_zero, Option.some.injEq] at ha
      subst ha
      simp only [List.set_cons_zero, List.map_cons, List.sum_cons, hb]
      ring
    | succ n =>
      simp only [List.getElem?_cons_succ] at ha
      simp only [List.set_cons_succ, List.map_cons, List.sum_cons, ih n ha]
      ring

/-- The image has the advertised dimensions. -/
def Shape (img : Image) (X Y Z : ℕ) : Prop :=
  img.length = X ∧ ∀ pl ∈ img, pl.length = Y ∧ ∀ r ∈ pl, r.length = Z

lemma shape_zerosImage (x y z : ℕ) : Shape (zerosImage x y z) x y z := by
  refine ⟨List.length_replicate _ _, ?_⟩
  intro pl hpl
  have h1 := List.eq_of_mem_replicate hpl
  subst h1
  refine ⟨List.length_replicate _ _, ?_⟩
  intro r hr
  have h2 := List.eq_of_mem_replicate hr
  subst h2
  exact List.length_replicate _ _

lemma zerosImage_cells (x y z : ℕ) :
    ∀ pl ∈ zerosImage x y z, ∀ r ∈ pl, ∀ q ∈ r, q = (0 : ℚ) := by
  intro pl hpl r hr q hq
  have h1 := List.eq_of_mem_replicate hpl
  subst h1
  have h2 := List.eq_of_mem_replicate hr
  subst h2
  exact List.eq_of_mem_replicate hq

lemma imageSum_zerosImage (x y z : ℕ) : imageSum (zerosImage x y z) = 0 := by
  simp [imageSum, zerosImage, List.map_replicate, List.sum_replicate]

lemma npIdx_of_nonneg {i : ℤ} {n : ℕ} (h0 : 0 ≤ i) (hn : i < (n : ℤ)) :
    npIdx i n = some i.toNat := by
  simp [npIdx, h0, hn]

lemma z_index_nonneg (z_bins : ℕ) (charge : ℤ) : 0 ≤ z_index z_bins charge := by
  unfold z_index
  split
  · exact abs_nonneg _
  · exact le_refl 0

/-- A three-axis in-bounds accumulation succeeds, keeps the shape and adds
exactly `v` to the total. -/
lemma addAt_ok {img : Image} {X Y Z : ℕ} (hs : Shape img X Y Z)
    {ix iy iz : ℤ} (hx0 : 0 ≤ ix) (hxX : ix < (X : ℤ))
    (hy0 : 0 ≤ iy) (hyY : iy < (Y : ℤ))
    (hz0 : 0 ≤ iz) (hzZ : iz < (Z : ℤ)) (v : ℚ) :
    ∃ img2, addAt img ix iy iz v = some img2 ∧ Shape img2 X Y Z ∧
      imageSum img2 = imageSum img + v := by
  obtain ⟨hlen, hmem⟩ := hs
  have hxn : ix.toNat < img.length := by omega
  have hplane : img[ix.toNat]? = some img[ix.toNat] :=
    List.getElem?_eq_getElem hxn
  set plane := img[ix.toNat] with hpl_def
  have hplmem : plane ∈ img := List.getElem_mem hxn
  obtain ⟨hplen, hpmem⟩ := hmem plane hplmem
  have hyn : iy.toNat < plane.length := by omega
  have hrow : plane[iy.toNat]? = some plane[iy.toNat] :=
    List.getElem?_eq_getElem hyn
  set row := plane[iy.toNat] with hrow_def
  have hrowmem : row ∈ plane := List.getElem_mem hyn
  have hrlen : row.length = Z := hpmem row hrowmem
  have hzn : iz.toNat < row.length := by omega
  have hcell : row[iz.toNat]? = some row[iz.toNat] :=
    List.getElem?_eq_getElem hzn
  set cell := row[iz.toNat] with hcell_def
  refine ⟨img.set ix.toNat (plane.set iy.toNat (row.set iz.toNat (cell + v))),
    ?_, ?_, ?_⟩
  · simp only [addAt,
      npIdx_of_nonneg hx0 (show ix < (List.length img : ℤ) by omega), hplane,
      npIdx_of_nonneg hy0 (show iy < (plane.length : ℤ) by omega), hrow,
      npIdx_of_nonneg hz0 (show iz < (row.length : ℤ) by omega), hcell]
  · refine ⟨by rw [List.length_set]; exact hlen, ?_⟩
    intro pl2 hpl2
    rcases List.mem_or_eq_of_mem_set hpl2 with hmem2 | heq2
    · exact hmem pl2 hmem2
    · subst heq2
      refine ⟨by rw [List.length_set]; exact hplen, ?_⟩
      intro r2 hr2
      rcases List.mem_or_eq_of_mem_set hr2 with hmem3 | heq3
      · exact hpmem r2 hmem3
      · subst heq3
        rw [List.length_set]
        exact hrlen
  · unfold imageSum
    refine sum_map_set_add _ _ _ _ _ _ hplane ?_
    refine sum_map_set_add _ _ _ _ _ _ hrow ?_
    exact sum_set_add _ _ _ _ hcell

lemma inWindowSum_nil (p : ImageParams) : inWindowSum p [] = 0 := by
  simp [inWindowSum]

lemma inWindowSum_cons_of_in {p : ImageParams} {c : Constituent}
    (cs : List Constituent) (h : inWindow p c) :
    inWindowSum p (c :: cs) = c.pt + inWindowSum p cs := by
  simp [inWindowSum, List.filter_cons, h]

lemma inWindowSum_cons_of_out {p : ImageParams} {c : Constituent}
    (cs : List Constituent) (h : ¬ inWindow p c) :
    inWindowSum p (c :: cs) = inWindowSum p cs := by
  simp [inWindowSum, List.filter_cons, h]

/-- Invariant of the rasterization loop: under valid axis parameters, with
no constituent sitting exactly on an upper window edge and every charge
channel in range, the loop never raises, keeps the image shape, and adds
exactly the in-window transverse momenta to the running total. -/
lemma rasterLoop_ok (p : ImageParams)
    (hxb : 0 < p.x_bins) (hyb : 0 < p.y_bins)
    (hxm : p.x_min < p.x_max) (hym : p.y_min < p.y_max)
    (cs : List Constituent)
    (hcs : ∀ c ∈ cs, c.deta ≠ p.x_max ∧ c.dphi ≠ p.y_max ∧
      z_index p.z_bins c.charge < (p.z_bins : ℤ)) :
    ∀ img, Shape img p.x_bins p.y_bins p.z_bins →
      ∃ img2,
        rasterLoop p ((p.x_max - p.x_min) / (p.x_bins : ℚ))
            ((p.y_max - p.y_min) / (p.y_bins : ℚ)) cs img = some img2 ∧
        Shape img2 p.x_bins p.y_bins p.z_bins ∧
        imageSum img2 = imageSum img + inWindowSum p cs := by
  have hxq : (0 : ℚ) < (p.x_bins : ℚ) := by exact_mod_cast hxb
  have hyq : (0 : ℚ) < (p.y_bins : ℚ) := by exact_mod_cast hyb
  have hxdpos : 0 < (p.x_max - p.x_min) / (p.x_bins : ℚ) :=
    div_pos (by linarith) hxq
  have hydpos : 0 < (p.y_max - p.y_min) / (p.y_bins : ℚ) :=
    div_pos (by linarith) hyq
  have hxedge : p.x_min + (p.x_bins : ℚ) * ((p.x_max - p.x_min) / (p.x_bins : ℚ))
      = p.x_max := by
    rw [mul_comm, div_mul_cancel₀ _ hxq.ne']
    ring
  have hyedge : p.y_min + (p.y_bins : ℚ) * ((p.y_max - p.y_min) / (p.y_bins : ℚ))
      = p.y_max := by
    rw [mul_comm, div_mul_cancel₀ _ hyq.ne']
    ring
  induction cs with
  | nil =>
    intro img hs
    exact ⟨img, rfl, hs, by simp [inWindowSum_nil]⟩
  | cons c rest ih =>
    intro img hs
    obtain ⟨hce, hcp, hcz⟩ := hcs c (List.mem_cons_self c rest)
    have hrest := fun d hd => hcs d (List.mem_cons_of_mem c hd)
    by_cases hin : inWindow p c
    · obtain ⟨h1, h2, h3, h4⟩ := hin
      have hx2 : c.deta < p.x_min + ((p.x_bins : ℤ) : ℚ) *
          ((p.x_max - p.x_min) / (p.x_bins : ℚ)) := by
        push_cast
        rw [hxedge]
        exact h2
      have hy2 : c.dphi < p.y_min + ((p.y_bins : ℤ) : ℚ) *
          ((p.y_max - p.y_min) / (p.y_bins : ℚ)) := by
        push_cast
        rw [hyedge]
        exact h4
      have hxbin0 := find_bin_nonneg hxdpos h1 hx2.le
      have hxbinlt := find_bin_lt hxdpos h1 hx2
      have hybin0 := find_bin_nonneg hydpos h3 hy2.le
      have hybinlt := find_bin_lt hydpos h3 hy2
      obtain ⟨img2, haddAt, hs2, hsum2⟩ :=
        addAt_ok hs hxbin0 hxbinlt hybin0 hybinlt
          (z_index_nonneg p.z_bins c.charge) hcz c.pt
      obtain ⟨img3, hloop, hs3, hsum3⟩ := ih hrest img2 hs2
      refine ⟨img3, ?_, hs3, ?_⟩
      · simp only [rasterLoop]
        rw [if_neg, haddAt]
        · exact hloop
        · push_neg
          constructor
          · omega
          · omega
      · rw [hsum3, hsum2, inWindowSum_cons_of_in rest ⟨h1, h2, h3, h4⟩]
        ring
    · have hskip : find_bin c.deta (p.x_bins : ℤ) p.x_min
          ((p.x_max - p.x_min) / (p.x_bins : ℚ)) = -1 ∨
          find_bin c.dphi (p.y_bins : ℤ) p.y_min
          ((p.y_max - p.y_min) / (p.y_bins : ℚ)) = -1 := by
        by_cases hxw : p.x_min ≤ c.deta ∧ c.deta < p.x_max
        · by_cases hyw : p.y_min ≤ c.dphi ∧ c.dphi < p.y_max
          · exact absurd ⟨hxw.1, hxw.2, hyw.1, hyw.2⟩ hin
          · right
            apply find_bin_out
            push_neg at hyw
            by_cases hylow : c.dphi < p.y_min
            · exact Or.inl hylow
            · push_neg at hylow
              have := hyw hylow
              right
              push_cast
              rw [hyedge]
              exact lt_of_le_of_ne this (Ne.symm hcp)
        · left
          apply find_bin_out
          push_neg at hxw
          by_cases hxlow : c.deta < p.x_min
          · exact Or.inl hxlow
          · push_neg at hxlow
            have := hxw hxlow
            right
            push_cast
            rw [hxedge]
            exact lt_of_le_of_ne this (Ne.symm hce)
      obtain ⟨img3, hloop, hs3, hsum3⟩ := ih hrest img hs
      refine ⟨img3, ?_, hs3, ?_⟩
      · simp only [rasterLoop]
        rw [if_pos hskip]
        exact hloop
      · rw [hsum3, inWindowSum_cons_of_out rest hin]

/-! ### Helper lemmas about sorting, matching and the driver trace -/

lemma mem_insertByPt {j a : Jet} {l : List Jet} :
    a ∈ insertByPt j l ↔ a = j ∨ a ∈ l := by
  induction l with
  | nil => simp [insertByPt]
  | cons k rest ih =>
    simp only [insertByPt]
    split
    · simp [List.mem_cons]
    · simp only [List.mem_cons, ih]
      tauto

lemma mem_sorted_by_pt {a : Jet} {l : List Jet} :
    a ∈ sorted_by_pt l ↔ a ∈ l := by
  induction l with
  | nil => simp [sorted_by_pt]
  | cons j rest ih =>
    have hstep : sorted_by_pt (j :: rest) = insertByPt j (sorted_by_pt rest) :=
      rfl
    rw [hstep, mem_insertByPt, List.mem_cons, ih]

lemma insertByPt_headBound {j : Jet} {l : List Jet}
    (hl : ∀ b t, l = b :: t → ∀ x ∈ l, x.pt ≤ b.pt) :
    ∀ b t, insertByPt j l = b :: t → ∀ x ∈ insertByPt j l, x.pt ≤ b.pt := by
  cases l with
  | nil =>
    intro b t hbt x hx
    simp only [insertByPt] at hbt hx
    obtain ⟨hb, -⟩ := List.cons.inj hbt
    subst hb
    simp only [List.mem_singleton] at hx
    subst hx
    exact le_refl _
  | cons k rest =>
    simp only [insertByPt]
    split
    · next hkj =>
      intro b t hbt x hx
      obtain ⟨hb, -⟩ := List.cons.inj hbt
      subst hb
      rcases List.mem_cons.mp hx with hx | hx
      · subst hx
        exact le_refl _
      · exact le_trans (hl k rest rfl x hx) hkj
    · next hkj =>
      intro b t hbt x hx
      obtain ⟨hb, -⟩ := List.cons.inj hbt
      subst hb
      rcases List.mem_cons.mp hx with hx | hx
      · subst hx
        exact le_refl _
      · rcases mem_insertByPt.mp hx with hx | hx
        · subst hx
          exact (lt_of_not_le hkj).le
        · exact hl k rest rfl x (List.mem_cons_of_mem k hx)

/-- The first element of `sorted_by_pt l` has maximal pt in `l`. -/
lemma sorted_by_pt_head_max (l : List Jet) :
    ∀ b t, sorted_by_pt l = b :: t → ∀ x ∈ sorted_by_pt l, x.pt ≤ b.pt := by
  induction l with
  | nil =>
    intro b t h
    simp [sorted_by_pt] at h
  | cons j rest ih =>
    have hstep : sorted_by_pt (j :: rest) = insertByPt j (sorted_by_pt rest) :=
      rfl
    rw [hstep]
    exact insertByPt_headBound ih

lemma sorted_by_pt_eq_nil {l : List Jet} (h : sorted_by_pt l = []) : l = [] := by
  cases l with
  | nil => rfl
  | cons j rest =>
    exfalso
    have hj : j ∈ sorted_by_pt (j :: rest) :=
      mem_sorted_by_pt.mpr (List.mem_cons_self j rest)
    rw [h] at hj
    exact List.not_mem_nil j hj

/-- When the circle selector keeps a candidate, the match is a detector
jet within the radius and of maximal pt among those within the radius. -/
lemma matchDetectorJet_some {radius : ℚ} {dist : Jet → Jet → ℚ} {truth dj : Jet}
    {det_jets : List Jet}
    (h : matchDetectorJet radius dist truth det_jets = some dj) :
    dj ∈ det_jets ∧ dist truth dj ≤ radius ∧
      ∀ j ∈ det_jets, dist truth j ≤ radius → j.pt ≤ dj.pt := by
  unfold matchDetectorJet at h
  set cand := det_jets.filter fun j => decide (dist truth j ≤ radius) with hcand
  cases hsort : sorted_by_pt cand with
  | nil =>
    rw [hsort] at h
    simp at h
  | cons b t =>
    rw [hsort] at h
    simp only [List.head?_cons, Option.some.injEq] at h
    subst h
    have hbmem : b ∈ cand := by
      rw [← mem_sorted_by_pt, hsort]
      exact List.mem_cons_self b t
    obtain ⟨hmem, hdist⟩ := List.mem_filter.mp hbmem
    refine ⟨hmem, of_decide_eq_true hdist, ?_⟩
    intro j hj hjr
    have hjcand : j ∈ cand := List.mem_filter.mpr ⟨hj, decide_eq_true hjr⟩
    exact sorted_by_pt_head_max cand b t hsort j
      (mem_sorted_by_pt.mpr hjcand)

/-- When no detector jet lies within the radius the selector yields no
candidate and conversely. -/
lemma matchDetectorJet_none {radius : ℚ} {dist : Jet → Jet → ℚ} {truth : Jet}
    {det_jets : List Jet}
    (h : matchDetectorJet radius dist truth det_jets = none) :
    ∀ j ∈ det_jets, ¬ dist truth j ≤ radius := by
  unfold matchDetectorJet at h
  intro j hj hjr
  cases hsort : sorted_by_pt
      (det_jets.filter fun j => decide (dist truth j ≤ radius)) with
  | nil =>
    have hnil := sorted_by_pt_eq_nil hsort
    have hjcand : j ∈ det_jets.filter fun j => decide (dist truth j ≤ radius) :=
      List.mem_filter.mpr ⟨hj, decide_eq_true hjr⟩
    rw [hnil] at hjcand
    exact List.not_mem_nil j hjcand
  | cons b t =>
    rw [hsort] at h
    simp at h

/-- One driver iteration either writes nothing or appends exactly one
line to each of the four streams. -/
lemma eventOps_cases (radius : ℚ) (dist : Jet → Jet → ℚ) (ev : EventOutcome)
    (s : GenState) :
    (eventOps radius dist ev s).2 = [] ∨
    (eventOps radius dist ev s).2 =
      [FileOp.write FStream.detJet, FileOp.write FStream.detImage,
       FileOp.write FStream.genJet, FileOp.write FStream.genImage] := by
  cases hg : (pythiaNext ev s).gen_jet with
  | nil => simp [eventOps, hg]
  | cons t ts =>
    cases hd : (pythiaNext ev s).det_jet with
    | nil => simp [eventOps, hg, hd]
    | cons d ds =>
      cases hm : matchDetectorJet radius dist t (d :: ds) with
      | none => simp [eventOps, hg, hd, hm]
      | some dj => simp [eventOps, hg, hd, hm]

lemma loopOps_write_only (radius : ℚ) (dist : Jet → Jet → ℚ) :
    ∀ (evs : List EventOutcome) (s : GenState) (op : FileOp),
      op ∈ loopOps radius dist evs s → ∃ st, op = FileOp.write st := by
  intro evs
  induction evs with
  | nil =>
    intro s op h
    simp [loopOps] at h
  | cons ev rest ih =>
    intro s op h
    simp only [loopOps, List.mem_append] at h
    rcases h with h | h
    · rcases eventOps_cases radius dist ev s with he | he <;> rw [he] at h
      · exact absurd h (List.not_mem_nil op)
      · simp only [List.mem_cons, List.not_mem_nil, or_false] at h
        rcases h with h | h | h | h <;> exact ⟨_, h⟩
    · exact ih _ _ h

/-! ### The claims -/

/-- C1: evaluation of the code at the failing input.  With all three
simulation flags off the init warning fires, but `smear_tracks` hands the
track selector the reset empty list, not the truth particles: the claimed
identity fallback does not happen (no branch of the `if`/`elif` chain
restores the truth list), so the detector side never sees any particle. -/
theorem C1_no_sim_detector_is_empty :
    no_sim_warning false false false = true ∧
    smear_tracks_detector false false false [] [⟨1, 0, 0, 1, 1⟩] = [] ∧
    ([] : List Particle) ≠ [⟨1, 0, 0, 1, 1⟩] := by
  refine ⟨rfl, rfl, ?_⟩
  simp

/-- C2 counterexample: at `value = 1`, `bin_count = 1`, `axis_min = 0`,
`bin_width = 1` the value lies in the claimed closed in-range interval,
`find_bin` indeed returns the floor `1`, but `1` is not an index in
`[0, bin_count)`. -/
theorem C2_counterexample :
    ((0 : ℚ) ≤ 1 ∧ (1 : ℚ) ≤ 0 + ((1 : ℤ) : ℚ) * 1) ∧
    find_bin 1 1 0 1 = 1 ∧ ¬ find_bin 1 1 0 1 < 1 := by
  norm_num [find_bin, pyInt]

/-- C2 (amended): for `bin_count n > 0` and `bin_width w > 0`, on the
closed interval `[m, m + n*w]` the function returns `⌊(v - m)/w⌋`, which
lies in `[0, n]`; it lies in `[0, n)` whenever `v < m + n*w`, while the
exact upper edge `v = m + n*w` yields `n` (one past the last valid
index); outside the closed interval the sentinel `-1` is returned.  The
function is total by construction. -/
theorem C2_find_bin_contract (v m w : ℚ) (n : ℤ) (hn : 0 < n) (hw : 0 < w) :
    (m ≤ v → v ≤ m + (n : ℚ) * w → find_bin v n m w = ⌊(v - m) / w⌋) ∧
    (m ≤ v → v ≤ m + (n : ℚ) * w →
      0 ≤ find_bin v n m w ∧ find_bin v n m w ≤ n) ∧
    (m ≤ v → v < m + (n : ℚ) * w → find_bin v n m w < n) ∧
    (v = m + (n : ℚ) * w → find_bin v n m w = n) ∧
    (v < m ∨ m + (n : ℚ) * w < v → find_bin v n m w = -1) := by
  refine ⟨fun h1 h2 => find_bin_eq_floor hw h1 h2,
    fun h1 h2 => ⟨find_bin_nonneg hw h1 h2, ?_⟩,
    fun h1 h2 => find_bin_lt hw h1 h2,
    fun he => ?_, fun h => find_bin_out h⟩
  · rw [find_bin_eq_floor hw h1 h2]
    have hq : (v - m) / w ≤ (n : ℚ) := by
      rw [div_le_iff₀ hw]
      linarith
    calc ⌊(v - m) / w⌋ ≤ ⌊(n : ℚ)⌋ := Int.floor_le_floor hq
      _ = n := Int.floor_intCast n
  · have h1 : m ≤ v := by nlinarith [mul_pos (show (0:ℚ) < (n:ℚ) by exact_mod_cast hn) hw]
    rw [find_bin_eq_floor hw h1 he.le, he]
    have : (m + (n : ℚ) * w - m) / w = (n : ℚ) := by
      field_simp
    rw [this, Int.floor_intCast]

/-- C2 witness: concrete uses of the amended contract at `n = 2`,
`m = 0`, `w = 1/2`. -/
theorem C2_find_bin_contract_witness :
    find_bin (1/2) 2 0 (1/2) = 1 ∧ 0 ≤ find_bin (1/2) 2 0 (1/2) ∧
    find_bin (1/2) 2 0 (1/2) < 2 ∧ find_bin 1 2 0 (1/2) = 2 ∧
    find_bin 2 2 0 (1/2) = -1 := by
  have h := C2_find_bin_contract (1/2) 0 (1/2) 2 (by norm_num) (by norm_num)
  have h2 := C2_find_bin_contract 1 0 (1/2) 2 (by norm_num) (by norm_num)
  have h3 := C2_find_bin_contract 2 0 (1/2) 2 (by norm_num) (by norm_num)
  refine ⟨?_, (h.2.1 (by norm_num) (by norm_num)).1,
    h.2.2.1 (by norm_num) (by norm_num),
    h2.2.2.2.1 (by norm_num), h3.2.2.2.2 (by norm_num)⟩
  rw [h.1 (by norm_num) (by norm_num)]
  norm_num

/-- C3: evaluation of the record reader at a well-formed input pair
(one jet line `1, 2, 3, 4`, one image line of `2*2*2 = 8` values).  The
image array comes back with shape `(1, 2, 2, 2)` in row order, but the
jet array row has `image_size = 8` NaN-padded columns — not the claimed
`(n, 4)` — because line 80 of image.py reuses `names=range(image_size)`
when parsing the jet file. -/
theorem C3_jet_array_padded_to_image_size :
    load_jet_images [[1, 2, 3, 4]] [[1, 2, 3, 4, 5, 6, 7, 8]] 2 2 2 =
      Except.ok
        ([[some 1, some 2, some 3, some 4, none, none, none, none]],
         [[[[some 1, some 2], [some 3, some 4]],
           [[some 5, some 6], [some 7, some 8]]]]) ∧
    ([some 1, some 2, some 3, some 4,
      none, none, none, none] : List Cell).length = 2 * 2 * 2 ∧
    ([some 1, some 2, some 3, some 4,
      none, none, none, none] : List Cell).length ≠ 4 := by
  refine ⟨?_, rfl, by decide⟩
  norm_num [load_jet_images, read_csv, np_reshape, reshapeRow, padTo,
    List.range_succ, List.replicate]

/-- C4 counterexample: with `z_bins = 2` and charge label `2` the code
computes channel `abs(charge) = 2`, not the claimed `1`, and `2` is not
inside a charge axis of size 2 — the accumulation raises `IndexError`
instead of staying in bounds. -/
theorem C4_counterexample :
    z_index 2 2 = 2 ∧ z_index 2 2 ≠ 1 ∧ ¬ z_index 2 2 < 2 ∧
    addAt (zerosImage 1 1 2) 0 0 (z_index 2 2) 5 = none := by
  refine ⟨rfl, by decide, by decide, ?_⟩
  simp [addAt, npIdx, zerosImage, z_index]

/-- C4 (amended): with `z_bins == 1` the charge channel is `0`; with
`z_bins == 2` it is `abs(charge)` — which is `0` for a zero charge label
and `1` for charge `±1` — and it lies inside the charge axis if and only
if `|charge| ≤ 1`. -/
theorem C4_charge_channel (c : ℤ) :
    z_index 1 c = 0 ∧ z_index 2 c = |c| ∧
    (c = 0 → z_index 2 c = 0) ∧ (c = 1 ∨ c = -1 → z_index 2 c = 1) ∧
    0 ≤ z_index 2 c ∧ (z_index 2 c < 2 ↔ |c| ≤ 1) := by
  refine ⟨rfl, rfl, ?_, ?_, abs_nonneg c, ?_⟩
  · rintro rfl
    decide
  · rintro (rfl | rfl) <;> decide
  · show |c| < 2 ↔ |c| ≤ 1
    rw [show (2 : ℤ) = 1 + 1 from rfl, Int.lt_add_one_iff]

/-- C4 witness: the amended channel rule at charges `1`, `0` and at
`z_bins = 1`. -/
theorem C4_charge_channel_witness :
    z_index 2 1 = 1 ∧ z_index 2 0 = 0 ∧ z_index 1 7 = 0 :=
  ⟨(C4_charge_channel 1).2.2.2.1 (Or.inl rfl),
   (C4_charge_channel 0).2.2.1 rfl,
   (C4_charge_channel 7).1⟩

/-- C5 counterexample: a constituent with offsets `(1, 0)` lies inside
the closed window of `ImageParams ⟨1, 0, 1, 1, 0, 1, 1⟩` (the spec's
in-range interval is `axis_min ≤ v ≤ axis_min + bins*width`), but
rasterization produces no image at all: the edge value falls into bin
index `1 = x_bins` and the accumulation raises `IndexError`, so neither
reading of the claim (edge constituent contributes its pt, or contributes
zero) is realized. -/
theorem C5_counterexample :
    pseudojet_to_image [⟨1, 0, 0, 5⟩] ⟨1, 0, 1, 1, 0, 1, 1⟩ = none ∧
    find_bin 1 1 0 ((1 - 0) / ((1 : ℕ) : ℚ)) = 1 := by
  constructor
  · norm_num [pseudojet_to_image, rasterLoop, find_bin, pyInt, z_index,
      addAt, npIdx, zerosImage, List.replicate]
  · norm_num [find_bin, pyInt]

/-- C5 (amended): for valid axis parameters (positive bin counts,
`min < max` on both axes, `z_bins ∈ {1, 2}`), and a jet none of whose
constituents sits exactly on an upper window edge (`deta = x_max` or
`dphi = y_max`) and whose charge labels lie in `{-1, 0, 1}` when
`z_bins = 2`: the initial image is all zeros, rasterization succeeds,
and the total cell sum equals the sum of pt over exactly those
constituents whose offsets satisfy `x_min ≤ deta < x_max` and
`y_min ≤ dphi < y_max`; all other constituents contribute zero. -/
theorem C5_rasterization_sum (p : ImageParams) (cs : List Constituent)
    (hxb : 0 < p.x_bins) (hyb : 0 < p.y_bins)
    (hxm : p.x_min < p.x_max) (hym : p.y_min < p.y_max)
    (hzb : p.z_bins = 1 ∨ p.z_bins = 2)
    (hedge : ∀ c ∈ cs, c.deta ≠ p.x_max ∧ c.dphi ≠ p.y_max ∧
      (p.z_bins = 2 → |c.charge| ≤ 1)) :
    (∀ pl ∈ zerosImage p.x_bins p.y_bins p.z_bins,
      ∀ r ∈ pl, ∀ q ∈ r, q = 0) ∧
    ∃ img, pseudojet_to_image cs p = some img ∧
      Shape img p.x_bins p.y_bins p.z_bins ∧
      imageSum img = inWindowSum p cs := by
  refine ⟨zerosImage_cells _ _ _, ?_⟩
  have hz : ∀ c ∈ cs, z_index p.z_bins c.charge < (p.z_bins : ℤ) := by
    intro c hc
    rcases hzb with h1 | h2
    · rw [h1]
      unfold z_index
      norm_num
    · rw [h2]
      have hz2 : z_index 2 c.charge = |c.charge| := rfl
      have h22 : ((2 : ℕ) : ℤ) = 2 := rfl
      rw [hz2, h22]
      have hch := (hedge c hc).2.2 h2
      linarith
  obtain ⟨img, hloop, hshape, hsum⟩ :=
    rasterLoop_ok p hxb hyb hxm hym cs
      (fun c hc => ⟨(hedge c hc).1, (hedge c hc).2.1, hz c hc⟩)
      (zerosImage p.x_bins p.y_bins p.z_bins) (shape_zerosImage _ _ _)
  refine ⟨img, ?_, hshape, ?_⟩
  · simpa only [pseudojet_to_image] using hloop
  · rw [hsum, imageSum_zerosImage]
    ring

/-- C5 witness: the spec's end-to-end scenario (two constituents at
`(∓1/2, ∓1/2)` with pt 3 and 7, a 2×2 single-channel window over
`[-1, 1]²`). -/
theorem C5_rasterization_sum_witness :
    ∃ img,
      pseudojet_to_image [⟨-1/2, -1/2, 0, 3⟩, ⟨1/2, 1/2, 0, 7⟩]
        ⟨2, -1, 1, 2, -1, 1, 1⟩ = some img ∧
      Shape img 2 2 1 ∧
      imageSum img =
        inWindowSum ⟨2, -1, 1, 2, -1, 1, 1⟩
          [⟨-1/2, -1/2, 0, 3⟩, ⟨1/2, 1/2, 0, 7⟩] := by
  refine (C5_rasterization_sum ⟨2, -1, 1, 2, -1, 1, 1⟩
      [⟨-1/2, -1/2, 0, 3⟩, ⟨1/2, 1/2, 0, 7⟩]
      (by norm_num) (by norm_num) (by norm_num) (by norm_num)
      (Or.inl rfl) ?_).2
  intro c hc
  fin_cases hc <;> norm_num

/-- C7: reading a well-formed pair of files whose row counts differ fails
with the dedicated shape-mismatch error (the `assert` on line 88 of
image.py fires before anything is returned), and no partial data is
returned — the error value carries nothing. -/
theorem C7_row_count_mismatch (jet_rows image_rows : List (List ℚ))
    (w h c : ℕ)
    (hjr : ∀ r ∈ jet_rows, r.length = 4)
    (hir : ∀ r ∈ image_rows, r.length = w * h * c)
    (h4 : 4 ≤ w * h * c)
    (hne : image_rows.length ≠ jet_rows.length) :
    load_jet_images jet_rows image_rows w h c =
      Except.error LoadError.shapeMismatch := by
  simp only [load_jet_images, np_reshape, read_csv, List.length_map]
  rw [if_neg hne]

/-- C7 witness: one jet row against an empty image file. -/
theorem C7_row_count_mismatch_witness :
    load_jet_images [[1, 2, 3, 4]] [] 2 2 2 =
      Except.error LoadError.shapeMismatch := by
  refine C7_row_count_mismatch _ _ 2 2 2 ?_ ?_ (by norm_num) (by simp)
  · intro r hr
    fin_cases hr
    rfl
  · intro r hr
    simp at hr

/-- C8 counterexample: a concrete full run of the driver (zero events, so
the loop body never executes and the run reaches its normal exit) whose
operation trace does not close the detector-jet stream exactly once — in
fact `main` contains no `close` call at all, so the count is 0. -/
theorem C8_counterexample :
    ¬ (mainOps 0 (fun _ _ => 0) []).count
        (FileOp.close FStream.detJet) = 1 := by
  decide

/-- C8 (amended): on the driver's straight-line path (the only exit path
it has) each of the four output streams is opened exactly once and never
closed by the driver; closure is left to interpreter finalization at
process exit. -/
theorem C8_streams_never_closed (radius : ℚ) (dist : Jet → Jet → ℚ)
    (events : List EventOutcome) (st : FStream) :
    (mainOps radius dist events).count (FileOp.openF st) = 1 ∧
    (mainOps radius dist events).count (FileOp.close st) = 0 := by
  have hloopO : FileOp.openF st ∉ loopOps radius dist events ⟨[], []⟩ := by
    intro hmem
    obtain ⟨st2, heq⟩ := loopOps_write_only radius dist events ⟨[], []⟩ _ hmem
    exact FileOp.noConfusion heq
  have hloopC : FileOp.close st ∉ loopOps radius dist events ⟨[], []⟩ := by
    intro hmem
    obtain ⟨st2, heq⟩ := loopOps_write_only radius dist events ⟨[], []⟩ _ hmem
    exact FileOp.noConfusion heq
  unfold mainOps
  rw [List.count_append, List.count_append,
    List.count_eq_zero.mpr hloopO, List.count_eq_zero.mpr hloopC]
  constructor
  · cases st <;> decide
  · cases st <;> decide

/-- C9: for an event whose truth jet list is nonempty with `truth`
leading (maximal pt) and whose detector jet list is nonempty, the matched
detector jet — when one exists — is a detector jet within `radius` of the
leading truth jet of maximal pt among all detector jets within the
radius; when no detector jet is within the radius, no pair is emitted and
the driver iteration writes nothing. -/
theorem C9_matching (radius : ℚ) (dist : Jet → Jet → ℚ) (truth : Jet)
    (genRest detJets : List Jet) (s : GenState)
    (hlead : ∀ j ∈ truth :: genRest, j.pt ≤ truth.pt)
    (hdet : detJets ≠ []) :
    (∀ dj, matchDetectorJet radius dist truth detJets = some dj →
        dj ∈ detJets ∧ dist truth dj ≤ radius ∧
        ∀ j ∈ detJets, dist truth j ≤ radius → j.pt ≤ dj.pt) ∧
    (matchDetectorJet radius dist truth detJets = none →
        (∀ j ∈ detJets, ¬ dist truth j ≤ radius) ∧
        (eventOps radius dist ⟨true, truth :: genRest, detJets⟩ s).2 = []) := by
  obtain ⟨d, ds, rfl⟩ := List.exists_cons_of_ne_nil hdet
  refine ⟨fun dj hm => matchDetectorJet_some hm,
    fun hm => ⟨matchDetectorJet_none hm, ?_⟩⟩
  simp [eventOps, pythiaNext, hm]

/-- C9 witness: a one-jet truth list against a one-jet detector list at
distance 0 and radius 1. -/
theorem C9_matching_witness :
    (∀ dj, matchDetectorJet 1 (fun _ _ => 0) ⟨10, 0, 0, 0⟩
        [⟨5, 0, 0, 0⟩] = some dj →
      dj ∈ [(⟨5, 0, 0, 0⟩ : Jet)] ∧
      (fun (_ _ : Jet) => (0 : ℚ)) ⟨10, 0, 0, 0⟩ dj ≤ 1 ∧
      ∀ j ∈ [(⟨5, 0, 0, 0⟩ : Jet)],
        (fun (_ _ : Jet) => (0 : ℚ)) ⟨10, 0, 0, 0⟩ j ≤ 1 → j.pt ≤ dj.pt) ∧
    (matchDetectorJet 1 (fun _ _ => 0) ⟨10, 0, 0, 0⟩ [⟨5, 0, 0, 0⟩] = none →
      (∀ j ∈ [(⟨5, 0, 0, 0⟩ : Jet)],
        ¬ (fun (_ _ : Jet) => (0 : ℚ)) ⟨10, 0, 0, 0⟩ j ≤ 1) ∧
      (eventOps 1 (fun _ _ => 0)
        ⟨true, [⟨10, 0, 0, 0⟩], [⟨5, 0, 0, 0⟩]⟩ ⟨[], []⟩).2 = []) := by
  refine C9_matching 1 (fun _ _ => 0) ⟨10, 0, 0, 0⟩ [] [⟨5, 0, 0, 0⟩]
    ⟨[], []⟩ ?_ (by simp)
  intro j hj
  fin_cases hj
  norm_num

/-- C10: when the external generator fails to produce an event,
`PythiaGenerator.next` returns early with both jet lists cleared, so the
driver iteration writes nothing and the loop simply carries on with the
remaining events — the failure never propagates past the iteration. -/
theorem C10_generator_failure_skipped (radius : ℚ) (dist : Jet → Jet → ℚ)
    (gj dj : List Jet) (s : GenState) (rest : List EventOutcome) :
    pythiaNext ⟨false, gj, dj⟩ s = ⟨[], []⟩ ∧
    eventOps radius dist ⟨false, gj, dj⟩ s = (⟨[], []⟩, []) ∧
    loopOps radius dist (⟨false, gj, dj⟩ :: rest) s =
      loopOps radius dist rest ⟨[], []⟩ := by
  refine ⟨rfl, rfl, ?_⟩
  simp [loopOps, eventOps, pythiaNext]

end JetGan
